import Mathlib

/-!
Verification of the pr-mcp server (src/index.js): a shallow embedding of its
git-context extraction and PR-title derivation core, together with proofs of
the specified properties.

Modelling conventions:
* JavaScript strings are embedded as `List Char` (`Str`); `String.prototype.length`
  and `substring` count code units, which for the lists used here coincides with
  list length.
* The external processes (`execSync`), the filesystem marker test
  (`fs.existsSync(path.join(dir, ".git"))`) and `JSON.parse` are oracles
  gathered in an `Env` structure; `execGit`'s catch-to-null wrapper and all
  decision logic on top of them are embedded concretely.
* Filesystem paths are lists of path components; `path.dirname` is `dropLast`
  and the root `/` is the empty component list.
* JavaScript truthiness on strings (`null` and `""` falsy) is `optTruthy` /
  `jsOrStr`; `null` interpolated into a template literal prints `"null"`
  (`interpOpt`).
* `RegExp` appears in two places: the ticket pattern (default
  `[A-Za-z]+-[0-9]+` with the `i` flag) is embedded concretely by
  `defaultTicketMatch` (leftmost match, greedy runs), while a configured
  override pattern is an oracle `rx` passed to `extractTicket`. The branch-type
  regex `^(feature|fix|hotfix|bugfix|chore|refactor|docs|test|ci)s?\/i` and the
  ticket-removal regex `ticket + "-?"` (a literal, case-insensitive) are
  embedded concretely.
-/

set_option maxRecDepth 8192

namespace PrMcp

/-- JavaScript strings, as lists of characters. -/
abbrev Str := List Char

/-- The character class `\s` of JavaScript regular expressions, which is also
the set trimmed by `String.prototype.trim` (WhiteSpace plus LineTerminator). -/
def jsWS (c : Char) : Bool :=
  c.toNat = 9 || c.toNat = 10 || c.toNat = 11 || c.toNat = 12 || c.toNat = 13 ||
  c.toNat = 32 || c.toNat = 160 || c.toNat = 5760 ||
  (8192 ≤ c.toNat && c.toNat ≤ 8202) || c.toNat = 8232 || c.toNat = 8233 ||
  c.toNat = 8239 || c.toNat = 8287 || c.toNat = 12288 || c.toNat = 65279

/-- The regex class `[A-Za-z]` (code points 65-90 and 97-122). -/
def isAsciiLetter (c : Char) : Bool :=
  (65 ≤ c.toNat && c.toNat ≤ 90) || (97 ≤ c.toNat && c.toNat ≤ 122)

/-- The regex class `[0-9]` (code points 48-57). -/
def isAsciiDigit (c : Char) : Bool :=
  48 ≤ c.toNat && c.toNat ≤ 57

/-- JavaScript string truthiness of a nullable string: `null` and `""` are
falsy, everything else truthy. -/
def optTruthy : Option Str → Bool
  | some (_ :: _) => true
  | _ => false

/-- `a || b` on a nullable JavaScript string `a` with fallback `b`. -/
def jsOrStr (a : Option Str) (b : Str) : Str :=
  match a with
  | some (c :: cs) => c :: cs
  | _ => b

/-- A nullable string interpolated into a template literal: `null` prints as
"null". -/
def interpOpt : Option Str → Str
  | some s => s
  | none => "null".data

/-- A match of `[A-Za-z]+-[0-9]+` anchored at the start of `s`: the maximal
letter run, a hyphen, the maximal digit run (regex greediness; no backtracking
can succeed because shorter letter runs still end in a letter). -/
def ticketMatchAt (s : Str) : Option Str :=
  match s.takeWhile isAsciiLetter, s.dropWhile isAsciiLetter with
  | [], _ => none
  | x :: xs, '-' :: r2 =>
    match r2.takeWhile isAsciiDigit with
    | [] => none
    | d :: ds => some ((x :: xs) ++ '-' :: (d :: ds))
  | _ :: _, _ => none

/-- The leftmost match of the default ticket pattern `[A-Za-z]+-[0-9]+` in a
string: try each start position left to right (the `i` flag adds nothing for
this pattern). Embeds `branchName.match(regex)` of src/index.js line 140. -/
def defaultTicketMatch : Str → Option Str
  | [] => none
  | c :: cs =>
    match ticketMatchAt (c :: cs) with
    | some m => some m
    | none => defaultTicketMatch cs

/-- Case-insensitive character comparison as JavaScript's `i` flag canonicalizes
ASCII letters. -/
def ciEq (a b : Char) : Bool :=
  a.toLower = b.toLower

/-- Strip the literal `p` from the front of `s`, case-insensitively; `none` when
`s` does not start with `p`. -/
def ciStripLit : Str → Str → Option Str
  | [], s => some s
  | _ :: _, [] => none
  | p :: ps, c :: cs => if ciEq p c then ciStripLit ps cs else none

/-- Match the regex tail `s?\/` (an optional plural `s`, then a slash) at the
front of the string, returning the rest. Greedy `s?` with the one backtracking
case written out: if the leading character is an `s` the slash must follow it,
since retrying with `s?` empty would need that same `s` to be a slash. -/
def stripPluralSlash : Str → Option Str
  | [] => none
  | c :: cs =>
    if ciEq c 's' then
      match cs with
      | '/' :: r => some r
      | _ => none
    else if c = '/' then some cs else none

/-- The alternatives of the branch-type prefix regex of src/index.js line 157,
in source order. -/
def branchTypes : List Str :=
  ["feature".data, "fix".data, "hotfix".data, "bugfix".data, "chore".data,
   "refactor".data, "docs".data, "test".data, "ci".data]

/-- First alternative of `(feature|fix|...)s?\/` that matches at the front of
`s` (case-insensitive), returning the rest of the string. -/
def stripBranchTypeAlts : List Str → Str → Option Str
  | [], _ => none
  | p :: ps, s =>
    match (ciStripLit p s).bind stripPluralSlash with
    | some r => some r
    | none => stripBranchTypeAlts ps s

/-- `branchName.replace(/^(feature|fix|hotfix|bugfix|chore|refactor|docs|test|ci)s?\//i, "")`:
remove one recognized branch-type prefix, or leave the string unchanged. -/
def stripBranchType (s : Str) : Str :=
  (stripBranchTypeAlts branchTypes s).getD s

/-- `desc.replace(new RegExp(ticket + "-?", "i"), "")`: remove the first
case-insensitive occurrence of the ticket literal plus an optional trailing
hyphen (tickets matched by the default pattern contain no regex
metacharacters, so the constructed regex is a literal). -/
def removeTicketOnce (t : Str) : Str → Str
  | [] => []
  | c :: cs =>
    match ciStripLit t (c :: cs) with
    | some rest =>
      match rest with
      | '-' :: r2 => r2
      | other => other
    | none => c :: removeTicketOnce t cs

/-- `.replace(/[-_]/g, " ")`. -/
def mapSeparators (s : Str) : Str :=
  s.map (fun c => if c = '-' || c = '_' then ' ' else c)

/-- Worker for `.replace(/\s+/g, " ")`: `inRun` records that the current
position continues a whitespace run whose single replacement space was already
emitted. -/
def collapseWSAux : Bool → Str → Str
  | _, [] => []
  | inRun, c :: cs =>
    if jsWS c then
      if inRun then collapseWSAux true cs
      else ' ' :: collapseWSAux true cs
    else c :: collapseWSAux false cs

/-- `.replace(/\s+/g, " ")`: each maximal whitespace run becomes one space. -/
def collapseWS (s : Str) : Str :=
  collapseWSAux false s

/-- `String.prototype.trim`: drop leading and trailing whitespace. -/
def trimJS (s : Str) : Str :=
  ((s.dropWhile jsWS).reverse.dropWhile jsWS).reverse

/-- The clean-up chain of src/index.js line 165:
`desc.replace(/[-_]/g, " ").replace(/\s+/g, " ").trim()`. -/
def cleanDescription (s : Str) : Str :=
  trimJS (collapseWS (mapSeparators s))

/-- The per-repository configuration file `.pr-mcp.json` (spec §3 RepoConfig).
A missing key is `none`; `{}` (all keys missing) is the default used when no
file is present. -/
structure RepoConfig where
  reviewers : Option (List Str) := none
  targetBranch : Option Str := none
  customPrompt : Option Str := none
  draft : Option Bool := none
  ticketPattern : Option Str := none
  titlePrefix : Option Str := none
  excludeFiles : Option (List Str) := none

/-- `extractTicket(branchName, pattern = "[A-Za-z]+-[0-9]+")` of src/index.js
lines 138-142: match the pattern case-insensitively, upper-case the match,
`null` when there is none. The default pattern is embedded concretely; a
configured override pattern is delegated to the regex oracle `rx`. -/
def extractTicket (rx : Str → Str → Option Str) (branchName : Str)
    (pattern : Option Str) : Option Str :=
  let m := match pattern with
    | none => defaultTicketMatch branchName
    | some p => rx p branchName
  m.map (List.map Char.toUpper)

/-- The description before clean-up: the branch name with one branch-type
prefix stripped and, when a (truthy) ticket was extracted, the first occurrence
of the ticket removed (src/index.js lines 156-162). -/
def descAfterTicketRemoval (ticket : Option Str) (branchName : Str) : Str :=
  let d1 := stripBranchType branchName
  if optTruthy ticket then removeTicketOnce (ticket.getD []) d1 else d1

/-- The cleaned description `generateTitle` computes (src/index.js lines
156-165). -/
def cleanedDesc (ticket : Option Str) (branchName : Str) : Str :=
  cleanDescription (descAfterTicketRemoval ticket branchName)

/-- `generateTitle(branchName, repoConfig = {})` of src/index.js lines 152-174. -/
def generateTitle (rx : Str → Str → Option Str) (branchName : Str)
    (cfg : RepoConfig) : Str :=
  let ticket := extractTicket rx branchName cfg.ticketPattern
  let desc := cleanedDesc ticket branchName
  let pre := if optTruthy cfg.titlePrefix then cfg.titlePrefix.getD [] ++ [' '] else []
  let tick := if optTruthy ticket then '[' :: (ticket.getD [] ++ "] ".data) else []
  pre ++ (tick ++ (if desc = [] then "Pull Request".data else desc))

/-- A filesystem directory as its list of path components; the root `/` is `[]`
and `path.dirname` is `List.dropLast`. -/
abbrev Dir := List Str

/-- The external world of src/index.js, as oracles:
`hasGitMarker d` is `fs.existsSync(path.join(d, ".git"))`;
`execRaw cwd cmd` is `execSync(cmd, { cwd })`, either the raw stdout or the
thrown error's message; `readRepoConfigFile root` is the contents of
`root/.pr-mcp.json` when the existence check and read succeed;
`parseRepoConfig` is `JSON.parse` on those contents (`none` when it throws);
`rx pattern s` is `s.match(new RegExp(pattern, "i"))` for a configured
(non-default) ticket pattern. -/
structure Env where
  hasGitMarker : Dir → Bool
  execRaw : Dir → Str → Except Str Str
  readRepoConfigFile : Dir → Option Str
  parseRepoConfig : Str → Option RepoConfig
  rx : Str → Str → Option Str

/-- `execGit(command, cwd)` of src/index.js lines 71-82: the trimmed stdout on
success, `null` on any execution error (the catch swallows it). -/
def execGit (env : Env) (cwd : Dir) (cmd : Str) : Option Str :=
  match env.execRaw cwd cmd with
  | .ok out => some (trimJS out)
  | .error _ => none

/-- Worker for `findGitRoot`: the `while (dir !== "/")` loop of src/index.js
lines 86-91, with the fuel bounding the iteration count (each iteration
shortens the path by one component, so `startDir.length` fuel is enough). -/
def findGitRootGo (hasMarker : Dir → Bool) : Nat → Dir → Option Dir
  | 0, _ => none
  | _, [] => none
  | fuel + 1, d => if hasMarker d then some d else findGitRootGo hasMarker fuel d.dropLast

/-- `findGitRoot(startDir)` of src/index.js lines 84-93: walk up from
`startDir` towards the root looking for a `.git` marker; `null` when the root
is reached (the root itself is never tested, as the loop guard excludes it). -/
def findGitRoot (hasMarker : Dir → Bool) (startDir : Dir) : Option Dir :=
  findGitRootGo hasMarker startDir.length startDir

/-- `s.split("\n")` (JavaScript semantics: `"" → [""]`, separators kept empty). -/
def splitNL : Str → List Str
  | [] => [[]]
  | c :: cs =>
    if c = '\n' then [] :: splitNL cs
    else
      match splitNL cs with
      | l :: ls => (c :: l) :: ls
      | [] => [[c]]

/-- `commits.split("\n").filter(Boolean).length`: the number of non-empty
lines. -/
def countNonEmptyLines (s : Str) : Nat :=
  ((splitNL s).filter (fun l => !l.isEmpty)).length

/-- The diff byte budget of src/index.js line 118 (`maxDiffSize`). -/
def maxDiffSize : Nat := 80000

/-- The truncation marker appended at src/index.js line 120. -/
def truncMarker : Str := "\n\n... [diff truncated]".data

/-- The git commands issued by `getGitContext`, as literal command strings. -/
def verifyCmd (b : Str) : Str := "git rev-parse --verify ".data ++ b

/-- `git branch --show-current`. -/
def showCurrentCmd : Str := "git branch --show-current".data

/-- `git log RESOLVED..HEAD --oneline`. -/
def logOnelineCmd (rt : Str) : Str := "git log ".data ++ rt ++ "..HEAD --oneline".data

/-- `git log RESOLVED..HEAD --pretty=format:"### %s%n%b"`. -/
def logMessagesCmd (rt : Str) : Str :=
  "git log ".data ++ rt ++ "..HEAD --pretty=format:\"### %s%n%b\"".data

/-- `git diff RESOLVED --stat`. -/
def diffStatCmd (rt : Str) : Str := "git diff ".data ++ rt ++ " --stat".data

/-- `git diff RESOLVED`. -/
def diffCmd (rt : Str) : Str := "git diff ".data ++ rt

/-- The change context assembled by `getGitContext` (src/index.js lines
125-135). -/
structure GitContext where
  gitRoot : Dir
  currentBranch : Option Str
  targetBranch : Str
  resolvedTarget : Str
  commits : Option Str
  commitMessages : Option Str
  diffStat : Option Str
  diff : Str
  commitCount : Nat

/-- The data-gathering tail of `getGitContext` (src/index.js lines 111-135),
once the root is located and the target resolved: current branch, commit list,
commit messages, file stat, the size-capped diff, and the commit count. -/
def buildContext (env : Env) (gitRoot : Dir) (targetBranch resolvedTarget : Str) :
    GitContext :=
  let commits := execGit env gitRoot (logOnelineCmd resolvedTarget)
  let diff0 := jsOrStr (execGit env gitRoot (diffCmd resolvedTarget)) []
  { gitRoot := gitRoot
    currentBranch := execGit env gitRoot showCurrentCmd
    targetBranch := targetBranch
    resolvedTarget := resolvedTarget
    commits := commits
    commitMessages := execGit env gitRoot (logMessagesCmd resolvedTarget)
    diffStat := execGit env gitRoot (diffStatCmd resolvedTarget)
    diff := if diff0.length > maxDiffSize then diff0.take maxDiffSize ++ truncMarker else diff0
    commitCount := if optTruthy commits then countNonEmptyLines (commits.getD []) else 0 }

/-- Error message of src/index.js line 98. -/
def notARepoMsg : Str := "Not in a git repository".data

/-- Error message of src/index.js line 107. -/
def targetNotFoundMsg (b : Str) : Str :=
  "Target branch '".data ++ b ++ "' not found".data

/-- `getGitContext(cwd, targetBranch)` of src/index.js lines 95-136: locate the
repository root (fail if absent), resolve the target branch preferring the
local reference and falling back to `origin/<name>` (fail naming the branch if
neither verifies), then gather the change context. -/
def getGitContext (env : Env) (cwd : Dir) (targetBranch : Str) :
    Except Str GitContext :=
  match findGitRoot env.hasGitMarker cwd with
  | none => .error notARepoMsg
  | some gitRoot =>
    if optTruthy (execGit env gitRoot (verifyCmd targetBranch)) then
      .ok (buildContext env gitRoot targetBranch targetBranch)
    else if optTruthy (execGit env gitRoot (verifyCmd ("origin/".data ++ targetBranch))) then
      .ok (buildContext env gitRoot targetBranch ("origin/".data ++ targetBranch))
    else
      .error (targetNotFoundMsg targetBranch)

/-- `loadRepoConfig(cwd)` of src/index.js lines 55-65: `null` when the file is
missing, unreadable, or fails to parse (the catch swallows parse errors). -/
def loadRepoConfig (env : Env) (cwd : Dir) : Option RepoConfig :=
  match env.readRepoConfigFile cwd with
  | none => none
  | some contents => env.parseRepoConfig contents

/-- The user-level configuration object produced by `loadConfig()`; only its
`defaultTarget` key is read by the tool handlers. -/
structure GlobalConfig where
  defaultTarget : Option Str := none

/-- `args?.target_branch || config.defaultTarget || "develop"` (src/index.js
lines 352, 401, 476, 541). -/
def resolveTargetArg (cfg : GlobalConfig) (argTarget : Option Str) : Str :=
  jsOrStr argTarget (jsOrStr cfg.defaultTarget "develop".data)

/-- A decimal numeral, as a template literal prints a non-negative number. -/
def natToStr (n : Nat) : Str := (toString n).data

/-- A boolean, as a template literal prints it. -/
def boolToStr (b : Bool) : Str := if b then "true".data else "false".data

/-- A directory rendered back as an absolute path string. -/
def renderPath (d : Dir) : Str := '/' :: List.intercalate ['/'] d

/-- The message of any JavaScript TypeError thrown by calling `.replace` on the
`null` current branch inside `generateTitle`. -/
def nullReplaceMsg : Str := "Cannot read properties of null (reading 'replace')".data

/-- The no-commits response of the `analyze_changes` handler (src/index.js
lines 356-363). -/
def noCommitsMsg (ctx : GitContext) (targetBranch : Str) : Str :=
  "No commits found between '".data ++ interpOpt ctx.currentBranch ++ "' and '".data ++
    targetBranch ++
    "'.\n\nMake sure you have commits that differ from the target branch.".data

/-- The repo-config section appended to the analysis response when a
`.pr-mcp.json` was loaded (src/index.js lines 388-394). -/
def repoConfigSection (rc : RepoConfig) : Str :=
  "\n### Repo Config (.pr-mcp.json)\n- Reviewers: ".data ++
    jsOrStr (rc.reviewers.map (List.intercalate ", ".data)) "none".data ++
  "\n- Target: ".data ++ jsOrStr rc.targetBranch "develop".data ++
  "\n- Custom Prompt: ".data ++ jsOrStr rc.customPrompt "none".data ++ "\n".data

/-- The full analysis response of `analyze_changes` (src/index.js lines
367-394). -/
def analysisText (ctx : GitContext) (targetBranch title : Str)
    (rc : Option RepoConfig) : Str :=
  "## Git Analysis\n\n**Current Branch:** ".data ++ interpOpt ctx.currentBranch ++
  "\n**Target Branch:** ".data ++ targetBranch ++
  "\n**Commits:** ".data ++ natToStr ctx.commitCount ++
  "\n**Suggested Title:** ".data ++ title ++
  "\n\n### Commits\n```\n".data ++ interpOpt ctx.commits ++
  "\n```\n\n### Files Changed\n```\n".data ++ jsOrStr ctx.diffStat "No changes".data ++
  "\n```\n\n### Commit Messages\n".data ++
  jsOrStr ctx.commitMessages "No commit messages".data ++ "\n".data ++
  (match rc with
   | some c => repoConfigSection c
   | none => [])

/-- The `analyze_changes` tool handler (src/index.js lines 351-397): `.error`
is what the dispatch catch turns into an error-flagged response. A `null`
current branch makes `generateTitle` throw in JavaScript; that path is the
`nullReplaceMsg` error. -/
def analyze_changes (env : Env) (cfg : GlobalConfig) (cwd : Dir)
    (argTarget : Option Str) : Except Str Str :=
  let targetBranch := resolveTargetArg cfg argTarget
  match getGitContext env cwd targetBranch with
  | .error e => .error e
  | .ok ctx =>
    let repoConfig := loadRepoConfig env ctx.gitRoot
    if optTruthy ctx.commits = false then .ok (noCommitsMsg ctx targetBranch)
    else
      match ctx.currentBranch with
      | none => .error nullReplaceMsg
      | some b =>
        .ok (analysisText ctx targetBranch
          (generateTitle env.rx b (repoConfig.getD {})) repoConfig)

/-- The arguments of the `create_pr` tool (its `working_directory` is resolved
to `cwd` by the dispatch). -/
structure CreatePrArgs where
  title : Option Str := none
  description : Option Str := none
  target_branch : Option Str := none
  reviewers : Option Str := none
  draft : Option Bool := none

/-- `a.replace(/"/g, '\\"')` of the gh argument quoting. -/
def escapeQuotes : Str → Str
  | [] => []
  | c :: cs => if c = '\"' then '\\' :: '\"' :: escapeQuotes cs else c :: escapeQuotes cs

/-- One gh argument wrapped in escaped double quotes (src/index.js line 519). -/
def quoteArg (a : Str) : Str := '\"' :: (escapeQuotes a ++ [ '\"' ])

/-- The argument vector built for `gh pr create` (src/index.js lines 502-516). -/
def ghCreateArgs (targetBranch headBranch title body reviewers : Str)
    (draft : Bool) : List Str :=
  (["pr".data, "create".data, "--base".data, targetBranch, "--head".data, headBranch,
    "--title".data, title, "--body".data, body] ++
   (if reviewers.isEmpty then [] else ["--reviewer".data, reviewers])) ++
  (if draft then ["--draft".data] else [])

/-- The full `gh ...` command string (src/index.js line 519). -/
def ghCommand (args : List Str) : Str :=
  "gh ".data ++ List.intercalate [' '] (args.map quoteArg)

/-- The `git push -u origin <branch>` command of src/index.js line 493. -/
def pushCommand (currentBranch : Option Str) : Str :=
  "git push -u origin ".data ++ interpOpt currentBranch

/-- The success response of `create_pr` (src/index.js lines 525-536). -/
def prCreatedText (title url targetBranch reviewers : Str) (draft : Bool) : Str :=
  "✅ **PR Created Successfully!**\n\n**Title:** ".data ++ title ++
  "\n**URL:** ".data ++ url ++
  "\n**Target:** ".data ++ targetBranch ++ "\n".data ++
  (if reviewers.isEmpty then [] else "**Reviewers:** ".data ++ reviewers) ++ "\n".data ++
  (if draft then "**Type:** Draft".data else [])

/-- The `create_pr` tool handler (src/index.js lines 475-537). The second
component is the trace of external state-changing commands it hands to
`execSync`: the branch push (whose failure the source swallows) and the
`gh pr create` invocation, in order. An error before that point leaves the
trace empty: nothing was pushed and no PR-creation command ran. -/
def create_pr (env : Env) (cfg : GlobalConfig) (cwd : Dir) (args : CreatePrArgs) :
    Except Str Str × List Str :=
  let targetBranch := resolveTargetArg cfg args.target_branch
  match getGitContext env cwd targetBranch with
  | .error e => (.error e, [])
  | .ok ctx =>
    let repoConfig := loadRepoConfig env ctx.gitRoot
    if optTruthy args.description = false then
      (.error "PR description is required".data, [])
    else
      let titleR : Except Str Str :=
        if optTruthy args.title then .ok (args.title.getD [])
        else
          match ctx.currentBranch with
          | none => .error nullReplaceMsg
          | some b => .ok (generateTitle env.rx b (repoConfig.getD {}))
      match titleR with
      | .error e => (.error e, [])
      | .ok title =>
        let reviewers := jsOrStr args.reviewers
          (jsOrStr ((repoConfig.bind (·.reviewers)).map (List.intercalate ",".data)) [])
        let draft := args.draft.getD false || (repoConfig.bind (·.draft)).getD false
        let push := pushCommand ctx.currentBranch
        let ghCmd := ghCommand (ghCreateArgs targetBranch (interpOpt ctx.currentBranch)
          title (args.description.getD []) reviewers draft)
        match env.execRaw ctx.gitRoot ghCmd with
        | .error e => (.error e, [push, ghCmd])
        | .ok out =>
          (.ok (prCreatedText title (trimJS out) targetBranch reviewers draft),
           [push, ghCmd])

/-- The guidance returned by `get_repo_config` when no `.pr-mcp.json` exists
(src/index.js lines 586-604). -/
def noConfigGuidance (gitRoot : Dir) : Str :=
  "No .pr-mcp.json found in ".data ++ renderPath gitRoot ++
  "\n\nThis is optional. To create one, add a .pr-mcp.json file:\n\n```json\n\x7b\n  \"reviewers\": [\"alice\", \"bob\"],\n  \"targetBranch\": \"main\",\n  \"customPrompt\": \"Focus on security\",\n  \"draft\": false\n\x7d\n```".data

/-- The response of `get_repo_config` when a config was loaded (src/index.js
lines 606-624); `stringify` stands for `JSON.stringify(repoConfig, null, 2)`. -/
def repoConfigText (stringify : RepoConfig → Str) (gitRoot : Dir)
    (rc : RepoConfig) : Str :=
  "## Repo Config\n\n**File:** ".data ++ renderPath gitRoot ++ "/.pr-mcp.json".data ++
  "\n\n```json\n".data ++ stringify rc ++
  "\n```\n\n**Parsed:**\n- Reviewers: ".data ++
    jsOrStr (rc.reviewers.map (List.intercalate ", ".data)) "none".data ++
  "\n- Target Branch: ".data ++ jsOrStr rc.targetBranch "develop".data ++
  "\n- Draft by Default: ".data ++ boolToStr (rc.draft.getD false) ++
  "\n- Custom Prompt: ".data ++ jsOrStr rc.customPrompt "none".data ++
  "\n- Excluded Files: ".data ++
    jsOrStr (rc.excludeFiles.map (List.intercalate ", ".data)) "none".data

/-- The `get_repo_config` tool handler (src/index.js lines 578-625). -/
def get_repo_config (env : Env) (stringify : RepoConfig → Str) (cwd : Dir) :
    Except Str Str :=
  match findGitRoot env.hasGitMarker cwd with
  | none => .error notARepoMsg
  | some gitRoot =>
    match loadRepoConfig env gitRoot with
    | none => .ok (noConfigGuidance gitRoot)
    | some rc => .ok (repoConfigText stringify gitRoot rc)

/-- A tool-call response at the protocol boundary: the dispatch catch
(src/index.js lines 673-681) turns a thrown error into an error-flagged
response prefixed with the error marker. -/
structure ToolResponse where
  text : Str
  isError : Bool

/-- The single tool-dispatch boundary: a handler's normal result, or the catch
block's error-flagged text. -/
def dispatchResult : Except Str Str → ToolResponse
  | .ok t => ⟨t, false⟩
  | .error m => ⟨"❌ **Error:** ".data ++ m, true⟩

/-- Adjacent-characters relation used to state whitespace normalization: of two
neighbouring characters at least one is not whitespace. -/
abbrev wsR (a b : Char) : Prop := jsWS a = false ∨ jsWS b = false

/-- Whether the string contains two consecutive space characters. -/
def hasDoubleSpace : Str → Bool
  | a :: b :: r => (a = ' ' && b = ' ') || hasDoubleSpace (b :: r)
  | _ => false

/-- Whether the string starts with a whitespace character. -/
def startsWithWS : Str → Bool
  | [] => false
  | c :: _ => jsWS c

/-- Whether the string ends with a whitespace character. -/
def endsWithWS (s : Str) : Bool := startsWithWS s.reverse

/-- A demonstration repository path used by the concrete witnesses. -/
def demoRepo : Dir := ["home".data, "repo".data]

/-- A demonstration environment for the witnesses: a repository at `demoRepo`
whose `develop` branch verifies both locally and as `origin/develop`, currently
on branch `feature/TK-42-add-login`, with an empty one-line log (zero commits
against `develop`), a small diff, and no `.pr-mcp.json`. -/
def demoEnv : Env :=
  { hasGitMarker := fun d => d == demoRepo
    execRaw := fun _ cmd =>
      if cmd = verifyCmd "develop".data then .ok "abc123".data
      else if cmd = verifyCmd ("origin/".data ++ "develop".data) then .ok "def456".data
      else if cmd = showCurrentCmd then .ok "feature/TK-42-add-login".data
      else if cmd = logOnelineCmd "develop".data then .ok []
      else if cmd = diffCmd "develop".data then .ok " short diff ".data
      else .error "failed".data
    readRepoConfigFile := fun _ => none
    parseRepoConfig := fun _ => none
    rx := fun _ _ => none }

/-! ### Character-class facts -/

theorem toNat_ofNat_valid {n : Nat} (h : n.isValidChar) : (Char.ofNat n).toNat = n := by
  simp [Char.ofNat, h, Char.ofNatAux, Char.toNat, UInt32.toNat]

theorem jsWS_false_of_ticketChar {c : Char}
    (h : c.toNat = 45 ∨ isAsciiLetter c = true ∨ isAsciiDigit c = true) :
    jsWS c = false := by
  simp only [isAsciiLetter, isAsciiDigit, Bool.or_eq_true, Bool.and_eq_true,
    decide_eq_true_eq] at h
  simp only [jsWS, Bool.or_eq_false_iff, Bool.and_eq_false_iff,
    decide_eq_false_iff_not]
  omega

theorem toNat_toUpper (c : Char) :
    c.toUpper.toNat = if 97 ≤ c.toNat ∧ c.toNat ≤ 122 then c.toNat - 32 else c.toNat := by
  by_cases h : 97 ≤ c.toNat ∧ c.toNat ≤ 122
  · rw [if_pos h]
    have hup : c.toUpper = Char.ofNat (c.toNat - 32) := by
      simp only [Char.toUpper]
      exact if_pos ⟨h.1, h.2⟩
    rw [hup]
    exact toNat_ofNat_valid (Or.inl (by omega))
  · rw [if_neg h]
    have hup : c.toUpper = c := by
      simp only [Char.toUpper]
      exact if_neg (fun h2 => h ⟨h2.1, h2.2⟩)
    rw [hup]

theorem jsWS_toUpper_false_of_ticketChar {c : Char}
    (h : c.toNat = 45 ∨ isAsciiLetter c = true ∨ isAsciiDigit c = true) :
    jsWS c.toUpper = false := by
  have hu := toNat_toUpper c
  simp only [isAsciiLetter, isAsciiDigit, Bool.or_eq_true, Bool.and_eq_true,
    decide_eq_true_eq] at h
  simp only [jsWS, Bool.or_eq_false_iff, Bool.and_eq_false_iff,
    decide_eq_false_iff_not]
  split at hu <;> omega

/-! ### List facts -/

theorem dropWhile_head_false {p : Char → Bool} :
    ∀ {l : Str} {c : Char} {r : Str}, l.dropWhile p = c :: r → p c = false := by
  intro l
  induction l with
  | nil => intro c r h; simp [List.dropWhile] at h
  | cons a t ih =>
    intro c r h
    rw [List.dropWhile_cons] at h
    split at h
    · exact ih h
    · rename_i hp
      cases h
      simpa using hp

theorem chain'_suffix {R : Char → Char → Prop} {l s : Str} (hs : s <:+ l)
    (h : List.Chain' R l) : List.Chain' R s := by
  obtain ⟨pre, rfl⟩ := hs
  revert h
  induction pre with
  | nil => intro h; simpa using h
  | cons a pre ih =>
    intro h
    exact ih (by simpa using List.Chain'.tail h)

theorem getLast?_eq_of_suffix {l s : Str} (hs : s <:+ l) {c : Char}
    (hc : s.getLast? = some c) : l.getLast? = some c := by
  obtain ⟨pre, rfl⟩ := hs
  have hne : s ≠ [] := by intro he; rw [he] at hc; simp at hc
  rw [List.getLast?_append_of_ne_nil _ hne]
  exact hc

/-! ### Whitespace-normalization facts -/

theorem collapseWSAux_head_not_ws :
    ∀ {s : Str} {c : Char} {r : Str}, collapseWSAux true s = c :: r → jsWS c = false := by
  intro s
  induction s with
  | nil => intro c r h; simp [collapseWSAux] at h
  | cons a t ih =>
    intro c r h
    simp only [collapseWSAux] at h
    by_cases ha : jsWS a
    · rw [if_pos ha] at h
      exact ih h
    · rw [if_neg ha] at h
      cases h
      simpa using ha

theorem chain'_cons_not_ws {c : Char} {l : Str} (hc : jsWS c = false)
    (h : List.Chain' wsR l) : List.Chain' wsR (c :: l) :=
  List.chain'_cons'.mpr ⟨fun _ _ => Or.inl hc, h⟩

theorem chain'_collapseWSAux : ∀ (b : Bool) (s : Str), List.Chain' wsR (collapseWSAux b s) := by
  intro b s
  induction s generalizing b with
  | nil => simp [collapseWSAux]
  | cons a t ih =>
    simp only [collapseWSAux]
    by_cases ha : jsWS a
    · rw [if_pos ha]
      cases b with
      | false =>
        show List.Chain' wsR (' ' :: collapseWSAux true t)
        apply List.chain'_cons'.mpr
        refine ⟨?_, ih true⟩
        intro y hy
        right
        cases hh : collapseWSAux true t with
        | nil => rw [hh] at hy; simp at hy
        | cons c r =>
          rw [hh] at hy
          simp at hy
          rw [← hy]
          exact collapseWSAux_head_not_ws hh
      | true => exact ih true
    · rw [if_neg ha]
      exact chain'_cons_not_ws (by simpa using ha) (ih false)

theorem mem_collapseWSAux : ∀ (b : Bool) (s : Str) (c : Char),
    c ∈ collapseWSAux b s → c = ' ' ∨ c ∈ s := by
  intro b s
  induction s generalizing b with
  | nil => intro c h; simp [collapseWSAux] at h
  | cons a t ih =>
    intro c h
    simp only [collapseWSAux] at h
    by_cases ha : jsWS a
    · rw [if_pos ha] at h
      cases b with
      | false =>
        rcases List.mem_cons.mp h with h1 | h1
        · exact Or.inl h1
        · rcases ih true c h1 with h2 | h2
          · exact Or.inl h2
          · exact Or.inr (List.mem_cons_of_mem a h2)
      | true =>
        rcases ih true c h with h2 | h2
        · exact Or.inl h2
        · exact Or.inr (List.mem_cons_of_mem a h2)
    · rw [if_neg ha] at h
      rcases List.mem_cons.mp h with h1 | h1
      · exact Or.inr (h1 ▸ List.mem_cons_self a t)
      · rcases ih false c h1 with h2 | h2
        · exact Or.inl h2
        · exact Or.inr (List.mem_cons_of_mem a h2)

theorem trimJS_head_not_ws {s : Str} {c : Char} {r : Str}
    (h : trimJS s = c :: r) : jsWS c = false := by
  unfold trimJS at h
  have h2 : ((s.dropWhile jsWS).reverse.dropWhile jsWS).getLast? = some c := by
    rw [← List.head?_reverse, h]
    rfl
  have h3 : (s.dropWhile jsWS).reverse.getLast? = some c :=
    getLast?_eq_of_suffix (List.dropWhile_suffix jsWS) h2
  rw [List.getLast?_reverse] at h3
  cases hd : s.dropWhile jsWS with
  | nil => rw [hd] at h3; simp at h3
  | cons x xs =>
    rw [hd] at h3
    simp at h3
    rw [← h3]
    exact dropWhile_head_false hd

theorem trimJS_last_not_ws {s : Str} {c : Char}
    (h : (trimJS s).getLast? = some c) : jsWS c = false := by
  unfold trimJS at h
  rw [List.getLast?_reverse] at h
  cases hd : (s.dropWhile jsWS).reverse.dropWhile jsWS with
  | nil => rw [hd] at h; simp at h
  | cons x xs =>
    rw [hd] at h
    simp at h
    rw [← h]
    exact dropWhile_head_false hd

theorem trimJS_chain {s : Str} (h : List.Chain' wsR s) : List.Chain' wsR (trimJS s) := by
  unfold trimJS
  have h1 : List.Chain' wsR (s.dropWhile jsWS) :=
    chain'_suffix (List.dropWhile_suffix jsWS) h
  have h2 : List.Chain' wsR (s.dropWhile jsWS).reverse := by
    rw [List.chain'_reverse]
    exact h1.imp (fun _ _ hab => Or.symm hab)
  have h3 : List.Chain' wsR ((s.dropWhile jsWS).reverse.dropWhile jsWS) :=
    chain'_suffix (List.dropWhile_suffix jsWS) h2
  rw [List.chain'_reverse]
  exact h3.imp (fun _ _ hab => Or.symm hab)

theorem hasDoubleSpace_eq_false : ∀ {l : Str}, List.Chain' wsR l → hasDoubleSpace l = false := by
  intro l
  induction l with
  | nil => intro h; rfl
  | cons a t ih =>
    intro h
    cases t with
    | nil => rfl
    | cons b r =>
      have h1 := List.chain'_cons.mp h
      rw [hasDoubleSpace, ih h1.2, Bool.or_false]
      rcases h1.1 with hws | hws
      · have hne : a ≠ ' ' := by
          intro he
          rw [he] at hws
          exact absurd hws (by decide)
        simp [hne]
      · have hne : b ≠ ' ' := by
          intro he
          rw [he] at hws
          exact absurd hws (by decide)
        simp [hne]

theorem startsWithWS_eq_false {l : Str}
    (h : ∀ c r, l = c :: r → jsWS c = false) : startsWithWS l = false := by
  cases l with
  | nil => rfl
  | cons c r => exact h c r rfl

theorem endsWithWS_eq_false {l : Str}
    (h : ∀ c, l.getLast? = some c → jsWS c = false) : endsWithWS l = false := by
  unfold endsWithWS
  cases hr : l.reverse with
  | nil => rfl
  | cons c r =>
    simp only [startsWithWS]
    apply h
    rw [← List.head?_reverse, hr]
    rfl

theorem chain'_append_not_ws {xs l : Str} (hxs : ∀ c ∈ xs, jsWS c = false)
    (h : List.Chain' wsR l) : List.Chain' wsR (xs ++ l) := by
  induction xs with
  | nil => simpa using h
  | cons a t ih =>
    have h2 := ih (fun c hc => hxs c (List.mem_cons_of_mem a hc))
    exact chain'_cons_not_ws (hxs a (List.mem_cons_self a t)) h2

/-! ### Properties of the cleaned description -/

theorem cleanDescription_chain (s : Str) : List.Chain' wsR (cleanDescription s) :=
  trimJS_chain (chain'_collapseWSAux false (mapSeparators s))

theorem cleanDescription_head_not_ws {s : Str} {c : Char} {r : Str}
    (h : cleanDescription s = c :: r) : jsWS c = false :=
  trimJS_head_not_ws h

theorem cleanDescription_last_not_ws {s : Str} {c : Char}
    (h : (cleanDescription s).getLast? = some c) : jsWS c = false :=
  trimJS_last_not_ws h

theorem hyphen_not_mem_mapSeparators (s : Str) : '-' ∉ mapSeparators s := by
  intro h
  rw [mapSeparators, List.mem_map] at h
  obtain ⟨c, _, hc⟩ := h
  by_cases h1 : (c = '-' || c = '_') = true
  · rw [if_pos h1] at hc
    exact absurd hc (by decide)
  · rw [if_neg h1] at hc
    subst hc
    exact h1 (by decide)

theorem mem_trimJS {s : Str} {c : Char} (h : c ∈ trimJS s) : c ∈ s := by
  unfold trimJS at h
  rw [List.mem_reverse] at h
  have h2 : c ∈ (s.dropWhile jsWS).reverse :=
    ((List.dropWhile_suffix jsWS).sublist).subset h
  rw [List.mem_reverse] at h2
  exact ((List.dropWhile_suffix jsWS).sublist).subset h2

theorem hyphen_not_mem_cleanDescription (s : Str) : '-' ∉ cleanDescription s := by
  intro h
  have h1 := mem_trimJS h
  rcases mem_collapseWSAux false (mapSeparators s) _ h1 with h2 | h2
  · exact absurd h2 (by decide)
  · exact hyphen_not_mem_mapSeparators s h2

/-! ### Structure of default-pattern ticket matches -/

theorem ticketMatchAt_some {s m : Str} (h : ticketMatchAt s = some m) :
    (∀ c ∈ m, c.toNat = 45 ∨ isAsciiLetter c = true ∨ isAsciiDigit c = true) ∧
    '-' ∈ s := by
  unfold ticketMatchAt at h
  split at h
  · exact absurd h (by simp)
  case h_3 => exact absurd h (by simp)
  · rename_i x xs r2 hT hD
    split at h
    · exact absurd h (by simp)
    · rename_i d ds hDs
      have hm : (x :: xs) ++ '-' :: (d :: ds) = m := Option.some.inj h
      constructor
      · intro c hc
        rw [← hm] at hc
        rcases List.mem_append.mp hc with h1 | h1
        · refine Or.inr (Or.inl ?_)
          apply List.mem_takeWhile_imp (p := isAsciiLetter) (l := s)
          rw [hT]
          exact h1
        · rcases List.mem_cons.mp h1 with h2 | h2
          · exact Or.inl (by rw [h2]; rfl)
          · refine Or.inr (Or.inr ?_)
            apply List.mem_takeWhile_imp (p := isAsciiDigit) (l := r2)
            rw [hDs]
            exact h2
      · have hmem : '-' ∈ s.dropWhile isAsciiLetter := by
          rw [hD]
          exact List.mem_cons_self _ _
        exact ((List.dropWhile_suffix isAsciiLetter).sublist).subset hmem

theorem defaultTicketMatch_some : ∀ {s m : Str}, defaultTicketMatch s = some m →
    ∀ c ∈ m, c.toNat = 45 ∨ isAsciiLetter c = true ∨ isAsciiDigit c = true := by
  intro s
  induction s with
  | nil => intro m h; simp [defaultTicketMatch] at h
  | cons a t ih =>
    intro m h
    unfold defaultTicketMatch at h
    cases hm : ticketMatchAt (a :: t) with
    | some m2 =>
      rw [hm] at h
      have h2 : m2 = m := Option.some.inj h
      exact h2 ▸ (ticketMatchAt_some hm).1
    | none =>
      rw [hm] at h
      exact ih h

theorem defaultTicketMatch_none_of_no_hyphen : ∀ {s : Str}, '-' ∉ s →
    defaultTicketMatch s = none := by
  intro s
  induction s with
  | nil => intro h; rfl
  | cons a t ih =>
    intro h
    unfold defaultTicketMatch
    cases hm : ticketMatchAt (a :: t) with
    | some m2 => exact absurd (ticketMatchAt_some hm).2 h
    | none => exact ih (fun hmem => h (List.mem_cons_of_mem a hmem))

/-! ### Whitespace discipline of generated titles -/

theorem chain'_pullRequest : List.Chain' wsR "Pull Request".data := by
  show List.Chain' wsR ['P', 'u', 'l', 'l', ' ', 'R', 'e', 'q', 'u', 'e', 's', 't']
  simp only [List.chain'_cons, List.chain'_singleton]
  refine ⟨?_, ?_, ?_, ?_, ?_, ?_, ?_, ?_, ?_, ?_, ?_⟩ <;> decide

theorem title_clean_of_rest (tk : Option Str)
    (htkchars : ∀ t, tk = some t → ∀ c ∈ t, jsWS c = false)
    {rest : Str} (hchain : List.Chain' wsR rest)
    (hhead : ∀ c r, rest = c :: r → jsWS c = false)
    (hlast : ∀ c, rest.getLast? = some c → jsWS c = false)
    (hne : rest ≠ []) :
    hasDoubleSpace ((if optTruthy tk then '[' :: (tk.getD [] ++ "] ".data) else []) ++
      rest) = false ∧
    startsWithWS ((if optTruthy tk then '[' :: (tk.getD [] ++ "] ".data) else []) ++
      rest) = false ∧
    endsWithWS ((if optTruthy tk then '[' :: (tk.getD [] ++ "] ".data) else []) ++
      rest) = false := by
  cases tk with
  | none =>
    simp only [optTruthy, if_neg Bool.false_ne_true, List.nil_append]
    exact ⟨hasDoubleSpace_eq_false hchain, startsWithWS_eq_false hhead,
      endsWithWS_eq_false hlast⟩
  | some t =>
    have htc : ∀ c ∈ t, jsWS c = false := htkchars t rfl
    cases t with
    | nil =>
      simp only [optTruthy, if_neg Bool.false_ne_true, List.nil_append]
      exact ⟨hasDoubleSpace_eq_false hchain, startsWithWS_eq_false hhead,
        endsWithWS_eq_false hlast⟩
    | cons t0 ts =>
      set t := t0 :: ts with ht
      rw [if_pos (show optTruthy (some t) = true from rfl), Option.getD_some]
      have heq : ('[' :: (t ++ "] ".data)) ++ rest =
          ('[' :: (t ++ [ ']' ])) ++ (' ' :: rest) := by
        simp
      have hxs : ∀ c ∈ '[' :: (t ++ [ ']' ]), jsWS c = false := by
        intro c hc
        rcases List.mem_cons.mp hc with h1 | h1
        · rw [h1]; decide
        · rcases List.mem_append.mp h1 with h2 | h2
          · exact htc c h2
          · rcases List.mem_singleton.mp h2 with rfl
            decide
      have hchainSp : List.Chain' wsR (' ' :: rest) := by
        apply List.chain'_cons'.mpr
        refine ⟨?_, hchain⟩
        intro y hy
        right
        cases hrest : rest with
        | nil => exact absurd hrest hne
        | cons c r =>
          rw [hrest] at hy
          simp at hy
          rw [← hy]
          exact hhead c r hrest
      refine ⟨?_, ?_, ?_⟩
      · rw [heq]
        exact hasDoubleSpace_eq_false (chain'_append_not_ws hxs hchainSp)
      · apply startsWithWS_eq_false
        intro c r h
        have h2 : '[' :: ((t ++ "] ".data) ++ rest) = c :: r := h
        cases h2
        decide
      · apply endsWithWS_eq_false
        intro c hc
        rw [List.getLast?_append_of_ne_nil _ hne] at hc
        exact hlast c hc

/-- C6 counterexample: the claim constrains only the ticket pattern, but a
configured title prefix consisting of a single space (with no ticket-pattern
override) makes `generateTitle` return a title that starts with whitespace and
contains a double space. -/
theorem generateTitle_ws_counterexample :
    ({ titlePrefix := some [ ' ' ] } : RepoConfig).ticketPattern = none ∧
    generateTitle (fun _ _ => none) "xyz".data { titlePrefix := some [ ' ' ] } =
      "  xyz".data ∧
    startsWithWS (generateTitle (fun _ _ => none) "xyz".data
      { titlePrefix := some [ ' ' ] }) = true ∧
    hasDoubleSpace (generateTitle (fun _ _ => none) "xyz".data
      { titlePrefix := some [ ' ' ] }) = true :=
  ⟨rfl, by decide, by decide, by decide⟩

/-- C6 (amended: the repo config must also configure no title prefix, since a
title prefix is prepended verbatim and may itself carry whitespace): for every
branch name and every regex oracle, with no ticket-pattern override and no
title prefix configured, the generated title contains no two consecutive
spaces and neither starts nor ends with whitespace. -/
theorem generateTitle_clean_whitespace (rx : Str → Str → Option Str) (b : Str)
    (cfg : RepoConfig) (hpat : cfg.ticketPattern = none)
    (hpre : cfg.titlePrefix = none) :
    hasDoubleSpace (generateTitle rx b cfg) = false ∧
    startsWithWS (generateTitle rx b cfg) = false ∧
    endsWithWS (generateTitle rx b cfg) = false := by
  have hT : generateTitle rx b cfg =
      (if optTruthy (extractTicket rx b none) then
        '[' :: ((extractTicket rx b none).getD [] ++ "] ".data) else []) ++
      (if cleanedDesc (extractTicket rx b none) b = [] then "Pull Request".data
       else cleanedDesc (extractTicket rx b none) b) := by
    unfold generateTitle
    rw [hpat, hpre]
    rfl
  rw [hT]
  have htkchars : ∀ t, extractTicket rx b none = some t → ∀ c ∈ t, jsWS c = false := by
    intro t ht c hc
    have ht2 : (defaultTicketMatch b).map (List.map Char.toUpper) = some t := ht
    obtain ⟨m, hm, hmt⟩ := Option.map_eq_some'.mp ht2
    rw [← hmt] at hc
    obtain ⟨c0, hc0, hcc⟩ := List.mem_map.mp hc
    rw [← hcc]
    exact jsWS_toUpper_false_of_ticketChar (defaultTicketMatch_some hm c0 hc0)
  by_cases hd : cleanedDesc (extractTicket rx b none) b = []
  · rw [if_pos hd]
    apply title_clean_of_rest _ htkchars chain'_pullRequest
    · intro c r h
      have h2 : ('P' :: "ull Request".data : Str) = c :: r := h
      cases h2
      decide
    · intro c hc
      have h2 : ("Pull Request".data : Str).getLast? = some 't' := rfl
      rw [h2] at hc
      cases hc
      decide
    · decide
  · rw [if_neg hd]
    exact title_clean_of_rest _ htkchars
      (cleanDescription_chain _)
      (fun c r h => cleanDescription_head_not_ws h)
      (fun c hc => cleanDescription_last_not_ws hc)
      hd

/-- C6 witness: the amended theorem applied at the concrete branch name
`feature/TK-42-add-login` with the empty repository configuration. -/
theorem generateTitle_clean_whitespace_witness :
    hasDoubleSpace (generateTitle (fun _ _ => none) "feature/TK-42-add-login".data {}) =
      false ∧
    startsWithWS (generateTitle (fun _ _ => none) "feature/TK-42-add-login".data {}) =
      false ∧
    endsWithWS (generateTitle (fun _ _ => none) "feature/TK-42-add-login".data {}) =
      false :=
  generateTitle_clean_whitespace (fun _ _ => none) "feature/TK-42-add-login".data {}
    rfl rfl

/-- C7: ticket extraction is idempotent with respect to title generation: for
every branch name, applying `extractTicket` with the default pattern to the
cleaned description `generateTitle` computes (after prefix stripping and
removal of the extracted ticket) yields no ticket. The clean-up step replaces
every hyphen with a space and the default pattern `[A-Za-z]+-[0-9]+` requires a
hyphen, so no match remains. -/
theorem ticket_extraction_idempotent (rx : Str → Str → Option Str) (b : Str) :
    extractTicket rx (cleanedDesc (extractTicket rx b none) b) none = none := by
  have h1 : defaultTicketMatch (cleanedDesc (extractTicket rx b none) b) = none :=
    defaultTicketMatch_none_of_no_hyphen
      (hyphen_not_mem_cleanDescription
        (descAfterTicketRemoval (extractTicket rx b none) b))
  show (defaultTicketMatch (cleanedDesc (extractTicket rx b none) b)).map
    (List.map Char.toUpper) = none
  rw [h1]
  rfl

/-! ### The git context builder -/

theorem jsOrStr_some_nil (s : Str) : jsOrStr (some s) [] = s := by
  cases s <;> rfl

theorem buildContext_resolvedTarget (env : Env) (root : Dir) (tb rt : Str) :
    (buildContext env root tb rt).resolvedTarget = rt := rfl

theorem buildContext_gitRoot (env : Env) (root : Dir) (tb rt : Str) :
    (buildContext env root tb rt).gitRoot = root := rfl

theorem buildContext_commits (env : Env) (root : Dir) (tb rt : Str) :
    (buildContext env root tb rt).commits = execGit env root (logOnelineCmd rt) := rfl

theorem buildContext_commitCount (env : Env) (root : Dir) (tb rt : Str) :
    (buildContext env root tb rt).commitCount =
      (if optTruthy (execGit env root (logOnelineCmd rt)) then
        countNonEmptyLines ((execGit env root (logOnelineCmd rt)).getD []) else 0) := rfl

theorem buildContext_diff (env : Env) (root : Dir) (tb rt : Str) :
    (buildContext env root tb rt).diff =
      (if maxDiffSize < (jsOrStr (execGit env root (diffCmd rt)) []).length then
        (jsOrStr (execGit env root (diffCmd rt)) []).take maxDiffSize ++ truncMarker
      else jsOrStr (execGit env root (diffCmd rt)) []) := rfl

/-- Inversion for a successful `getGitContext`: the root was located and the
context is `buildContext` at the resolved target. -/
theorem getGitContext_ok {env : Env} {cwd : Dir} {tb : Str} {ctx : GitContext}
    (h : getGitContext env cwd tb = .ok ctx) :
    ∃ root rt, findGitRoot env.hasGitMarker cwd = some root ∧
      ctx = buildContext env root tb rt := by
  unfold getGitContext at h
  split at h
  · exact absurd h (by simp)
  · rename_i root hroot
    split at h
    · exact ⟨root, tb, hroot, (Except.ok.inj h).symm⟩
    · split at h
      · exact ⟨root, "origin/".data ++ tb, hroot, (Except.ok.inj h).symm⟩
      · exact absurd h (by simp)

/-- C2: branch resolution in `getGitContext` prefers the local reference: when
the plain `git rev-parse --verify` of the requested branch is truthy the
resolved target is the branch itself (whatever the origin check would say);
otherwise, when the `origin/`-qualified check is truthy, it is the qualified
name; and when both fail the call errors with a message naming the branch. -/
theorem branch_resolution_prefers_local (env : Env) (cwd : Dir) (b : Str)
    (root : Dir) (hroot : findGitRoot env.hasGitMarker cwd = some root) :
    (optTruthy (execGit env root (verifyCmd b)) = true →
      getGitContext env cwd b = .ok (buildContext env root b b) ∧
      (buildContext env root b b).resolvedTarget = b) ∧
    (optTruthy (execGit env root (verifyCmd b)) = false →
      optTruthy (execGit env root (verifyCmd ("origin/".data ++ b))) = true →
      getGitContext env cwd b = .ok (buildContext env root b ("origin/".data ++ b)) ∧
      (buildContext env root b ("origin/".data ++ b)).resolvedTarget =
        "origin/".data ++ b) ∧
    (optTruthy (execGit env root (verifyCmd b)) = false →
      optTruthy (execGit env root (verifyCmd ("origin/".data ++ b))) = false →
      getGitContext env cwd b = .error (targetNotFoundMsg b) ∧
      b <:+: targetNotFoundMsg b) := by
  refine ⟨?_, ?_, ?_⟩
  · intro h1
    simp only [getGitContext, hroot, h1]
    exact ⟨rfl, rfl⟩
  · intro h1 h2
    simp only [getGitContext, hroot, h1, h2]
    exact ⟨rfl, rfl⟩
  · intro h1 h2
    simp only [getGitContext, hroot, h1, h2]
    refine ⟨rfl, "Target branch '".data, "' not found".data, ?_⟩
    simp [targetNotFoundMsg]

/-- C2 witness: in the demonstration environment both `develop` and
`origin/develop` verify, and the resolved target is the local `develop`. -/
theorem branch_resolution_prefers_local_witness :
    getGitContext demoEnv demoRepo "develop".data =
      .ok (buildContext demoEnv demoRepo "develop".data "develop".data) ∧
    (buildContext demoEnv demoRepo "develop".data "develop".data).resolvedTarget =
      "develop".data :=
  (branch_resolution_prefers_local demoEnv demoRepo "develop".data demoRepo rfl).1
    (by decide)

/-- C3: the diff stored in the change context is the diff produced for the
resolved range, truncated to the byte budget with the explicit marker exactly
when it exceeds 80000, returned unchanged otherwise; its length never exceeds
the budget plus the marker's length. -/
theorem diff_truncation (env : Env) (cwd : Dir) (tb : Str) (ctx : GitContext)
    (hok : getGitContext env cwd tb = .ok ctx) :
    (∀ d, execGit env ctx.gitRoot (diffCmd ctx.resolvedTarget) = some d →
      (maxDiffSize < d.length → ctx.diff = d.take maxDiffSize ++ truncMarker) ∧
      (d.length ≤ maxDiffSize → ctx.diff = d)) ∧
    ctx.diff.length ≤ maxDiffSize + truncMarker.length := by
  obtain ⟨root, rt, hroot, hctx⟩ := getGitContext_ok hok
  subst hctx
  constructor
  · intro d hd
    have hd2 : execGit env root (diffCmd rt) = some d := hd
    rw [buildContext_diff, hd2, jsOrStr_some_nil]
    constructor
    · intro hlen
      rw [if_pos hlen]
    · intro hlen
      rw [if_neg (by omega)]
  · rw [buildContext_diff]
    cases hx : execGit env root (diffCmd rt) with
    | none =>
      show (if maxDiffSize < (jsOrStr none []).length then
          (jsOrStr none []).take maxDiffSize ++ truncMarker
        else jsOrStr none []).length ≤ maxDiffSize + truncMarker.length
      simp [jsOrStr, maxDiffSize]
    | some d =>
      rw [jsOrStr_some_nil]
      by_cases hlen : maxDiffSize < d.length
      · rw [if_pos hlen, List.length_append, List.length_take]
        omega
      · rw [if_neg hlen]
        omega

/-- C3 witness: the demonstration environment's short diff is returned
unchanged (its trimmed text, under the budget). -/
theorem diff_truncation_witness :
    (buildContext demoEnv demoRepo "develop".data "develop".data).diff =
      "short diff".data :=
  ((diff_truncation demoEnv demoRepo "develop".data
      (buildContext demoEnv demoRepo "develop".data "develop".data) rfl).1
    "short diff".data (by decide)).2 (by decide)

/-- C1: the concrete title scenarios of the spec: `feature/TK-42-add-login`
with empty config gives `[TK-42] add login`; `hotfix/payment-bug` with a
`[WIP]` title prefix gives `[WIP] payment bug`; the ticket-only branch
`TK-1234` gives `[TK-1234] Pull Request`; the unstructured branch `xyz` gives
title `xyz`, with the description part being `xyz` verbatim. -/
theorem generateTitle_examples (rx : Str → Str → Option Str) :
    generateTitle rx "feature/TK-42-add-login".data {} = "[TK-42] add login".data ∧
    generateTitle rx "hotfix/payment-bug".data { titlePrefix := some "[WIP]".data } =
      "[WIP] payment bug".data ∧
    generateTitle rx "TK-1234".data {} = "[TK-1234] Pull Request".data ∧
    generateTitle rx "xyz".data {} = "xyz".data ∧
    cleanedDesc (extractTicket rx "xyz".data none) "xyz".data = "xyz".data :=
  ⟨rfl, rfl, rfl, rfl, rfl⟩

/-- C4: the commit count of every successfully built change context equals the
number of non-empty lines of the one-line commit list; and when the log
between the resolved target and the current position is empty (zero commits),
the count is 0 and `analyze_changes` returns the no-commits message rather
than a response with an empty commit section. -/
theorem commitCount_matches (env : Env) (cfg : GlobalConfig) (cwd : Dir)
    (argTarget : Option Str) (ctx : GitContext)
    (hok : getGitContext env cwd (resolveTargetArg cfg argTarget) = .ok ctx) :
    ctx.commitCount = countNonEmptyLines (ctx.commits.getD []) ∧
    (ctx.commits = some [] →
      ctx.commitCount = 0 ∧
      analyze_changes env cfg cwd argTarget =
        .ok (noCommitsMsg ctx (resolveTargetArg cfg argTarget))) := by
  obtain ⟨root, rt, hroot, hctx⟩ := getGitContext_ok hok
  constructor
  · subst hctx
    rw [buildContext_commitCount, buildContext_commits]
    cases hco : execGit env root (logOnelineCmd rt) with
    | none => rfl
    | some s => cases s <;> rfl
  · intro hcom
    constructor
    · subst hctx
      have hcom2 : execGit env root (logOnelineCmd rt) = some [] := hcom
      rw [buildContext_commitCount, hcom2]
      rfl
    · simp [analyze_changes, hok, hcom, optTruthy]

/-- C4 witness: in the demonstration environment the one-line log is empty, so
the commit count is 0 and `analyze_changes` reports the no-commits message. -/
theorem commitCount_matches_witness :
    (buildContext demoEnv demoRepo "develop".data "develop".data).commitCount =
      countNonEmptyLines
        ((buildContext demoEnv demoRepo "develop".data "develop".data).commits.getD []) ∧
    ((buildContext demoEnv demoRepo "develop".data "develop".data).commits = some [] →
      (buildContext demoEnv demoRepo "develop".data "develop".data).commitCount = 0 ∧
      analyze_changes demoEnv {} demoRepo none =
        .ok (noCommitsMsg (buildContext demoEnv demoRepo "develop".data "develop".data)
          (resolveTargetArg {} none))) :=
  commitCount_matches demoEnv {} demoRepo none
    (buildContext demoEnv demoRepo "develop".data "develop".data) rfl

/-- C5: a `create_pr` call whose `description` argument is absent (or empty)
produces an error-flagged response through the dispatch boundary, and its
external-command trace is empty: no `git push` is attempted and no
`gh pr create` is invoked; when the git context was built successfully the
error is precisely the missing-description message. -/
theorem create_pr_missing_description (env : Env) (cfg : GlobalConfig) (cwd : Dir)
    (args : CreatePrArgs) (h : optTruthy args.description = false) :
    (dispatchResult (create_pr env cfg cwd args).1).isError = true ∧
    (create_pr env cfg cwd args).2 = [] ∧
    (∀ ctx, getGitContext env cwd (resolveTargetArg cfg args.target_branch) = .ok ctx →
      (create_pr env cfg cwd args).1 = .error "PR description is required".data) := by
  cases hg : getGitContext env cwd (resolveTargetArg cfg args.target_branch) with
  | error e =>
    refine ⟨?_, ?_, ?_⟩
    · simp [create_pr, hg, dispatchResult]
    · simp [create_pr, hg]
    · intro ctx hctx
      exact absurd hctx (by simp)
  | ok ctx =>
    refine ⟨?_, ?_, ?_⟩
    · simp [create_pr, hg, h, dispatchResult]
    · simp [create_pr, hg, h]
    · intro ctx2 hctx
      simp [create_pr, hg, h]

/-- C5 witness: `create_pr` with empty arguments (no description) against the
demonstration environment. -/
theorem create_pr_missing_description_witness :
    (dispatchResult (create_pr demoEnv {} demoRepo {}).1).isError = true ∧
    (create_pr demoEnv {} demoRepo {}).2 = [] ∧
    (∀ ctx, getGitContext demoEnv demoRepo
        (resolveTargetArg {} ({} : CreatePrArgs).target_branch) = .ok ctx →
      (create_pr demoEnv {} demoRepo {}).1 = .error "PR description is required".data) :=
  create_pr_missing_description demoEnv {} demoRepo {} rfl

/-! ### The repository locator -/

theorem take_dropLast {α : Type} (l : List α) (k : Nat) (h : k ≤ l.length - 1) :
    l.dropLast.take k = l.take k := by
  rw [List.dropLast_eq_take, List.take_take]
  congr 1
  omega

theorem findGitRootGo_none (hm : Dir → Bool) :
    ∀ (fuel : Nat) (d : Dir), d.length ≤ fuel → findGitRootGo hm fuel d = none →
      ∀ k, 0 < k → k ≤ d.length → hm (d.take k) = false := by
  intro fuel
  induction fuel with
  | zero =>
    intro d hlen _ k hk1 hk2
    omega
  | succ n ih =>
    intro d hlen h k hk1 hk2
    cases d with
    | nil => simp at hk2; omega
    | cons a l =>
      simp only [findGitRootGo] at h
      split at h
      · exact absurd h (by simp)
      · rename_i hneg
        by_cases hk : k = (a :: l).length
        · rw [hk, List.take_length]
          exact Bool.eq_false_iff.mpr hneg
        · have hlen2 : (a :: l).dropLast.length = l.length := by
            rw [List.length_dropLast]
            simp
          have hk3 : k ≤ l.length := by
            simp only [List.length_cons] at hk2 hk
            omega
          have := ih (a :: l).dropLast (by rw [hlen2]; simp at hlen; omega) h k hk1
            (by rw [hlen2]; exact hk3)
          rw [take_dropLast (a :: l) k (by simp; omega)] at this
          exact this

theorem findGitRootGo_some (hm : Dir → Bool) :
    ∀ (fuel : Nat) (d r : Dir), d.length ≤ fuel →
      findGitRootGo hm fuel d = some r →
      ∃ k, 0 < k ∧ k ≤ d.length ∧ r = d.take k ∧ hm r = true ∧
        ∀ j, k < j → j ≤ d.length → hm (d.take j) = false := by
  intro fuel
  induction fuel with
  | zero =>
    intro d r hlen h
    simp [findGitRootGo] at h
  | succ n ih =>
    intro d r hlen h
    cases d with
    | nil => simp [findGitRootGo] at h
    | cons a l =>
      simp only [findGitRootGo] at h
      split at h
      · rename_i hpos
        have hr : a :: l = r := Option.some.inj h
        refine ⟨(a :: l).length, by simp, le_refl _, ?_, ?_, ?_⟩
        · rw [← hr, List.take_length]
        · rw [← hr]; exact hpos
        · intro j hj1 hj2
          omega
      · rename_i hneg
        have hlen2 : (a :: l).dropLast.length = l.length := by
          rw [List.length_dropLast]
          simp
        obtain ⟨k, hk1, hk2, hk3, hk4, hk5⟩ :=
          ih (a :: l).dropLast r (by rw [hlen2]; simp at hlen; omega) h
        rw [hlen2] at hk2
        refine ⟨k, hk1, by simp; omega, ?_, hk4, ?_⟩
        · rw [hk3, take_dropLast (a :: l) k (by simp; omega)]
        · intro j hj1 hj2
          by_cases hj : j = (a :: l).length
          · rw [hj, List.take_length]
            exact Bool.eq_false_iff.mpr hneg
          · have hj3 : j ≤ l.length := by
              simp only [List.length_cons] at hj2 hj
              omega
            have := hk5 j hj1 (by rw [hlen2]; exact hj3)
            rw [take_dropLast (a :: l) j (by simp; omega)] at this
            exact this

/-- C8: the repository locator walks upward through the ancestors of the
starting directory (its prefixes, longest first) and returns the nearest one
holding the `.git` marker: the result is a non-root prefix `take k` carrying
the marker such that every strictly longer ancestor lacks it. When the root is
reached without a match it returns `none`, and in that case `getGitContext`
fails with the descriptive not-a-repository error instead of proceeding. -/
theorem findGitRoot_nearest (env : Env) (cwd : Dir) :
    (∀ r, findGitRoot env.hasGitMarker cwd = some r →
      ∃ k, 0 < k ∧ k ≤ cwd.length ∧ r = cwd.take k ∧ env.hasGitMarker r = true ∧
        ∀ j, k < j → j ≤ cwd.length → env.hasGitMarker (cwd.take j) = false) ∧
    (findGitRoot env.hasGitMarker cwd = none →
      (∀ k, 0 < k → k ≤ cwd.length → env.hasGitMarker (cwd.take k) = false) ∧
      ∀ tb, getGitContext env cwd tb = .error notARepoMsg) := by
  constructor
  · intro r hr
    exact findGitRootGo_some env.hasGitMarker cwd.length cwd r (le_refl _) hr
  · intro hn
    refine ⟨findGitRootGo_none env.hasGitMarker cwd.length cwd (le_refl _) hn, ?_⟩
    intro tb
    simp only [getGitContext, hn]

/-- C9: `execGit` returns the trimmed standard output whenever the underlying
`execSync` call succeeds, and the explicit absence value `none` whenever it
fails (non-zero exit, exceeded buffer, or any other throw); being a total
function into `Option`, it never propagates an exception to its caller. -/
theorem execGit_contract (env : Env) (cwd : Dir) (cmd : Str) :
    (∀ out, env.execRaw cwd cmd = .ok out → execGit env cwd cmd = some (trimJS out)) ∧
    (∀ e, env.execRaw cwd cmd = .error e → execGit env cwd cmd = none) := by
  constructor
  · intro out h
    simp only [execGit, h]
  · intro e h
    simp only [execGit, h]

/-- C10: loading the per-repository configuration is a total function whose
absence value covers both a missing `.pr-mcp.json` and one whose contents fail
to parse; in either case `get_repo_config` answers with the creation guidance
and title generation falls back to the default configuration, so the two
situations are indistinguishable at the tool interface. -/
theorem loadRepoConfig_invalid_eq_absent (env : Env) (stringify : RepoConfig → Str)
    (root : Dir) :
    (env.readRepoConfigFile root = none → loadRepoConfig env root = none) ∧
    (∀ s, env.readRepoConfigFile root = some s → env.parseRepoConfig s = none →
      loadRepoConfig env root = none) ∧
    (∀ cwd, findGitRoot env.hasGitMarker cwd = some root →
      loadRepoConfig env root = none →
      get_repo_config env stringify cwd = .ok (noConfigGuidance root)) ∧
    (∀ rx b, loadRepoConfig env root = none →
      generateTitle rx b ((loadRepoConfig env root).getD {}) = generateTitle rx b {}) := by
  refine ⟨?_, ?_, ?_, ?_⟩
  · intro h
    simp only [loadRepoConfig, h]
  · intro s h1 h2
    simp only [loadRepoConfig, h1, h2]
  · intro cwd h1 h2
    simp only [get_repo_config, h1, h2]
  · intro rx b h
    rw [h]
    rfl

end PrMcp
